import Mathlib

/-!
Verification of the binary-shard data pipeline and the distributed data
loaders of the SpeedRunningESM2 repository.

The development shallowly embeds the relevant Python code:

* `write_datafile` and the shard-writing driver `tokenize_fw`
  (from `data/omgprot50.py`);
* `_load_data_shard`, `DistributedDataLoader.next_batch` and
  `DistributedPaddedDataLoader.advance` (from `dataloading.py`).

Files are modelled as lists of byte values (`List Nat`, each entry a byte),
token buffers as lists of token values.  Fallible code (Python asserts and
uncaught exceptions) is modelled with `Except String`.
-/

set_option maxRecDepth 100000

/-! ## Shard file format: `write_datafile` (data/omgprot50.py) -/

/-- Little-endian byte encoding of one `np.uint16` value (`toks.tobytes()`
stores each token in exactly 2 bytes, least significant byte first). -/
def u16le (t : Nat) : List Nat := [t % 256, t / 256 % 256]

/-- Little-endian byte encoding of one `np.int32` header word (only used with
nonnegative values below `2^31` by the writer). -/
def i32le (n : Nat) : List Nat :=
  [n % 256, n / 256 % 256, n / 65536 % 256, n / 16777216 % 256]

/-- `write_datafile(filename, toks)`: asserts `len(toks) < 2**31`, then writes
a 1024-byte header of 256 int32 words — `[magic = 20240520, version = 1,
token_count, 0, ..., 0]` — followed by the tokens, each as a 2-byte uint16.
The result is the byte content of the written file. -/
def write_datafile (toks : List Nat) : Except String (List Nat) :=
  if 2147483648 ≤ toks.length then .error "token count too large"
  else .ok ((i32le 20240520 ++ i32le 1 ++ i32le toks.length ++
      List.replicate 1012 0) ++ (toks.map u16le).flatten)

/-! ## Shard reader: `_load_data_shard` (dataloading.py) -/

/-- Decode header word `w` of a file: 4 bytes at offset `4*w`, little-endian,
two's complement signed 32-bit (the header is read as `torch.int32`). -/
def readI32 (file : List Nat) (w : Nat) : Int :=
  let b : Nat → Nat := fun i => file.getD (4 * w + i) 0 % 256
  let u : Nat := b 0 + 256 * b 1 + 65536 * b 2 + 16777216 * b 3
  if u < 2147483648 then (u : Int) else (u : Int) - 4294967296

/-- `_load_data_shard(file)`: reads the 256-int32 header (fails if the file is
shorter than 1024 bytes), asserts the magic word and the version word, takes
the claimed token count `N = header[2]`, allocates an `N`-element uint8 buffer
and reads into it from offset 1024; asserts that the number of bytes read is
`N`.  Returns the `N` byte values read. -/
def _load_data_shard (file : List Nat) : Except String (List Nat) :=
  if file.length < 1024 then .error "could not map file" else
  if readI32 file 0 = 20240520 then
    if readI32 file 1 = 1 then
      let n : Int := readI32 file 2
      if n < 0 then .error "cannot allocate a tensor of negative size" else
      let num_tokens : Nat := n.toNat
      if (file.drop 1024).length < num_tokens then
        .error "number of tokens read does not match header?"
      else .ok ((file.drop 1024).take num_tokens)
    else .error "unsupported version"
  else .error "magic number mismatch in the data .bin file"

/-! ## Shard-writing driver: `tokenize_fw` (data/omgprot50.py)

The driver consumes the (order-preserving) parallel map of the tokenizer over
the documents.  Its mutable state is the preallocated shard buffer (modelled by
its filled prefix `buf`), the shards written so far, and whether the tqdm
progress bar currently exists (`progress_bar` is `None` after every shard
write and before the first append; calling `.update` on `None` raises). -/

/-- The writer-loop state: shards written so far (as their token contents), the
filled prefix of the current shard buffer (`all_tokens_np[:token_count]`), and
whether `progress_bar` is currently not `None`. -/
structure FwState where
  shards : List (List Nat)
  buf : List Nat
  pbLive : Bool
deriving DecidableEq, Repr

/-- One iteration of the `tokenize_fw` loop body for a single document's token
list.  If the tokens fit strictly below `shard_size`, they are appended and the
progress bar is (re)created; otherwise `progress_bar.update(remainder)` is
called (raising if the bar is `None`), the current shard is written filled up
to exactly `shard_size` with the document's first `remainder` tokens, and the
document's remaining tokens become the start of the next shard buffer (numpy
raises if they do not fit into the `shard_size`-sized buffer). -/
def fwStep (shard_size : Nat) (st : FwState) (tokens : List Nat) :
    Except String FwState :=
  if st.buf.length + tokens.length < shard_size then
    .ok ⟨st.shards, st.buf ++ tokens, true⟩
  else if st.pbLive = false then
    .error "AttributeError: NoneType object has no attribute update"
  else
    let remainder := shard_size - st.buf.length
    let leftovers := tokens.drop remainder
    if shard_size < leftovers.length then
      .error "ValueError: could not broadcast input array"
    else
      .ok ⟨st.shards ++ [st.buf ++ tokens.take remainder], leftovers, false⟩

/-- `tokenize_fw`: folds the loop body over all documents (the pool's `imap`
preserves document order) and finally writes any nonempty remaining buffer as
the last shard.  Returns the token contents of all shard files, in filename
(= creation) order. -/
def tokenize_fw (shard_size : Nat) (docs : List (List Nat)) :
    Except String (List (List Nat)) := do
  let st ← docs.foldlM (fwStep shard_size) ⟨[], [], false⟩
  if st.buf.length ≠ 0 then return st.shards ++ [st.buf] else return st.shards

/-! ## Single-stream loader: `DistributedDataLoader` (dataloading.py)

The loader's files are modelled by the token payloads `_load_data_shard`
returns for them, in the loader's (sorted) file order. -/

/-- State of a `DistributedDataLoader`: file payloads, `next_shard`, the
current shard's token buffer and the in-shard cursor `pos`. -/
structure DState where
  files : List (List Nat)
  next_shard : Nat
  tokens : List Nat
  pos : Nat
deriving DecidableEq, Repr

/-- `DistributedDataLoader.advance()`: reset `pos`, load the shard at index
`next_shard`, and step `next_shard` cyclically. -/
def dAdvance (st : DState) : DState :=
  ⟨st.files, (st.next_shard + 1) % st.files.length,
    st.files.getD st.next_shard [], 0⟩

/-- `DistributedDataLoader.next_batch()`: return this rank's slice
`tokens[pos + rank*local_batch_size:][:local_batch_size]` (the device/dtype
conversion preserves the token values), advance `pos` by `batch_size`, and
eagerly advance to the next shard when `pos + batch_size >= len(tokens)`. -/
def dNextBatch (batch_size rank world_size : Nat) (st : DState) :
    List Nat × DState :=
  let local_batch_size := batch_size / world_size
  let buf := (st.tokens.drop (st.pos + rank * local_batch_size)).take
    local_batch_size
  let pos' := st.pos + batch_size
  (buf, if st.tokens.length ≤ pos' + batch_size
        then dAdvance ⟨st.files, st.next_shard, st.tokens, pos'⟩
        else ⟨st.files, st.next_shard, st.tokens, pos'⟩)

/-! ## Padded loader: `DistributedPaddedDataLoader` (dataloading.py) -/

/-- A run of `n` PAD tokens (`torch.full((n,), pad_id)`). -/
def padRow (pad n : Nat) : List Nat := List.replicate n pad

/-- Split a list into consecutive pieces of `k` elements (the last piece may
be shorter); `fuel` bounds the recursion and is always instantiated with the
list length, which suffices when `1 ≤ k`. -/
def chunksOf : Nat → Nat → List Nat → List (List Nat)
  | _, _, [] => []
  | 0, _, _ :: _ => []
  | fuel + 1, k, t :: rest =>
      (t :: rest).take k :: chunksOf fuel k ((t :: rest).drop k)

/-- `torch.chunk(s, c)`: split `s` into pieces of `ceil(len(s)/c)` elements;
the last returned piece may be shorter and, when `len(s)` is small relative to
`c`, fewer than `c` pieces are returned. -/
def torchChunk (s : List Nat) (c : Nat) : List (List Nat) :=
  chunksOf s.length ((s.length + c - 1) / c) s

/-- Indices `i` with `raw[i] == eos`, in increasing order
(`(raw_tokens == eos_id).nonzero()`). -/
def eosPositions (eos : Nat) (raw : List Nat) : List Nat :=
  (List.range raw.length).filter (fun i => raw.getD i 0 = eos)

/-- Python slice `raw[a:b]`. -/
def sliceList (raw : List Nat) (a b : Nat) : List Nat :=
  (raw.drop a).take (b - a)

/-- The samples the `advance` loop iterates over: for the `i`-th EOS position
`curr_eos`, the sample is `raw_tokens[prev_eos_plus_one : curr_eos + 1]` where
`prev_eos_plus_one` is `0` for `i = 0` and `eos_positions[i-1] + 1` otherwise. -/
def samplesOf (eos : Nat) (raw : List Nat) : List (List Nat) :=
  let E := eosPositions eos raw
  (List.range E.length).map (fun i =>
    sliceList raw (if i = 0 then 0 else E.getD (i - 1) 0 + 1) (E.getD i 0 + 1))

/-- Body of one iteration of the packing loop (after the in-loop assertion):
if appending the sample would meet or exceed `local_batch_size`, pad the
current row to full width and reset the running length; if the sample is
strictly longer than `local_batch_size`, emit each `torch.chunk` piece padded
to full width and reset; otherwise append the sample, zeroing the running
length exactly on an exact fit. -/
def packStep (lbs pad : Nat) (acc : List Nat) (curr : Nat) (s : List Nat) :
    List Nat × Nat :=
  let st1 : List Nat × Nat :=
    if lbs ≤ s.length + curr then (acc ++ padRow pad (lbs - curr), 0)
    else (acc, curr)
  if lbs < s.length then
    ((torchChunk s (s.length / lbs + 1)).foldl
        (fun a ch => a ++ ch ++ padRow pad (lbs - ch.length)) st1.1, 0)
  else
    let c := st1.2 + s.length
    (st1.1 ++ s, if c = lbs then 0 else c)

/-- The packing loop of `DistributedPaddedDataLoader.advance`, including the
in-loop `assert curr_batch_len < self.local_batch_size`.  Returns the
concatenated processed chunks and the final running row length. -/
def packLoop (lbs pad : Nat) :
    List (List Nat) → List Nat → Nat → Except String (List Nat × Nat)
  | [], acc, curr => .ok (acc, curr)
  | s :: rest, acc, curr =>
    if lbs ≤ curr then .error "AssertionError: curr_batch_len, local_batch_size"
    else packLoop lbs pad rest (packStep lbs pad acc curr s).1
      (packStep lbs pad acc curr s).2

/-- A 64-bit linear congruential step, driving the modelled shuffle. -/
def lcg (s : Nat) : Nat :=
  (6364136223846793005 * s + 1442695040888963407) % 18446744073709551616

/-- Recursive selection step of the modelled shuffle. -/
def pythonShuffleGo : Nat → Nat → List α → List α
  | 0, _, l => l
  | _ + 1, _, [] => []
  | fuel + 1, s, x :: xs =>
      let j := s % (x :: xs).length
      (x :: xs).getD j x :: pythonShuffleGo fuel (lcg s) ((x :: xs).eraseIdx j)

/-- Modelled from the spec: `random.seed(k); random.shuffle(files)` — the
Python standard-library PRNG shuffle, which is missing from src/, is a
deterministic permutation of the list that is a pure function of the integer
seed; the concrete generator (Mersenne Twister) is abstracted by an
LCG-driven selection shuffle. -/
def pythonShuffle (seed : Nat) (l : List α) : List α :=
  pythonShuffleGo l.length (lcg seed) l

/-- Construction parameters of a `DistributedPaddedDataLoader` (with
`batch_size = seq_len`, so `local_batch_size = seq_len / world_size`). -/
structure PadParams where
  local_batch_size : Nat
  cls_id : Nat
  eos_id : Nat
  pad_id : Nat
  max_epochs : Nat
deriving DecidableEq, Repr

/-- State of a `DistributedPaddedDataLoader`: file payloads (in current order),
`next_shard`, `_leftover_tokens`, the packed working buffer `tokens`, and
`pos`. -/
structure PState where
  files : List (List Nat)
  next_shard : Nat
  leftover_tokens : List Nat
  tokens : List Nat
  pos : Nat
deriving DecidableEq, Repr

/-- The part of `DistributedPaddedDataLoader.advance` that runs after the
combined raw buffer `raw` has been assembled and `next_shard` updated to `ns`:
early return clearing both buffers when `raw` is empty; the epoch-boundary
reshuffle when `ns % len(files) == 0`; EOS segmentation and the packing loop;
`NameError` on the final `raw_tokens[curr_eos+1:]` when the loop body never
ran (no EOS in `raw`). -/
def processRaw (P : PadParams) (files : List (List Nat)) (ns : Nat)
    (raw : List Nat) : Except String PState :=
  if raw = [] then .ok ⟨files, ns, [], [], 0⟩
  else
    let files2 := if ns % files.length = 0 then pythonShuffle ns files else files
    match (eosPositions P.eos_id raw).getLast? with
    | none => .error "NameError: name curr_eos is not defined"
    | some lastE =>
      match packLoop P.local_batch_size P.pad_id
          (samplesOf P.eos_id raw) [] 0 with
      | .error e => .error e
      | .ok (out, _) => .ok ⟨files2, ns, raw.drop (lastE + 1), out, 0⟩

/-- `DistributedPaddedDataLoader.advance()`: under the epoch limit, load the
shard at the cyclic index, prepend `_leftover_tokens`, and increment
`next_shard`; past the limit, operate on the leftovers alone.  (Python raises
`ZeroDivisionError` on an empty file list.) -/
def padAdvance (P : PadParams) (st : PState) : Except String PState :=
  if st.files.length = 0 then
    .error "ZeroDivisionError: integer division or modulo by zero"
  else if st.next_shard / st.files.length < P.max_epochs then
    processRaw P st.files (st.next_shard + 1)
      (st.leftover_tokens ++ st.files.getD (st.next_shard % st.files.length) [])
  else
    processRaw P st.files st.next_shard st.leftover_tokens

/-- `reset()` (inherited from `DistributedDataLoader`): rewind `next_shard` to
0 and call `advance()`; `_leftover_tokens` is not touched. -/
def padReset (P : PadParams) (st : PState) : Except String PState :=
  padAdvance P ⟨st.files, 0, st.leftover_tokens, st.tokens, st.pos⟩

/-- `DistributedPaddedDataLoader.__init__`: start with empty leftover buffer,
then `reset()`. -/
def padInit (P : PadParams) (files : List (List Nat)) : Except String PState :=
  padReset P ⟨files, 0, [], [], 0⟩

/-! ## Helper lemmas about the packing loop -/

theorem chunksOf_mem_length_le {k : Nat} :
    ∀ {fuel : Nat} {l ch : List Nat}, ch ∈ chunksOf fuel k l → ch.length ≤ k := by
  intro fuel
  induction fuel with
  | zero =>
    intro l ch h
    cases l with
    | nil => simp [chunksOf] at h
    | cons t rest => simp [chunksOf] at h
  | succ fuel ih =>
    intro l ch h
    cases l with
    | nil => simp [chunksOf] at h
    | cons t rest =>
      simp only [chunksOf, List.mem_cons] at h
      rcases h with h | h
      · subst h; simp [List.length_take_le]
      · exact ih h

theorem chunksOf_mem_ne_nil {k : Nat} (hk : 1 ≤ k) :
    ∀ {fuel : Nat} {l ch : List Nat}, ch ∈ chunksOf fuel k l → ch ≠ [] := by
  intro fuel
  induction fuel with
  | zero =>
    intro l ch h
    cases l with
    | nil => simp [chunksOf] at h
    | cons t rest => simp [chunksOf] at h
  | succ fuel ih =>
    intro l ch h
    cases l with
    | nil => simp [chunksOf] at h
    | cons t rest =>
      simp only [chunksOf, List.mem_cons] at h
      rcases h with h | h
      · subst h
        cases k with
        | zero => omega
        | succ k => simp [List.take]
      · exact ih h

theorem chunksOf_flatten {k : Nat} (hk : 1 ≤ k) :
    ∀ {fuel : Nat} {l : List Nat}, l.length ≤ fuel →
      (chunksOf fuel k l).flatten = l := by
  intro fuel
  induction fuel with
  | zero =>
    intro l h
    cases l with
    | nil => simp [chunksOf]
    | cons t rest => simp at h
  | succ fuel ih =>
    intro l h
    cases l with
    | nil => simp [chunksOf]
    | cons t rest =>
      simp only [List.length_cons] at h
      simp only [chunksOf, List.flatten_cons]
      rw [ih (by simp only [List.length_drop, List.length_cons]; omega),
        List.take_append_drop]

theorem chunk_size_arith {lbs n : Nat} (h1 : 1 ≤ lbs) (_hn : lbs < n) :
    (n + (n / lbs + 1) - 1) / (n / lbs + 1) ≤ lbs := by
  obtain ⟨q, r, hq, hr, hd⟩ :
      ∃ q r, lbs * q + r = n ∧ r < lbs ∧ n / lbs = q :=
    ⟨n / lbs, n % lbs, Nat.div_add_mod n lbs, Nat.mod_lt n h1, rfl⟩
  rw [hd]
  clear hd
  have hb : 0 < q + 1 := Nat.succ_pos q
  rw [Nat.div_le_iff_le_mul_add_pred hb]
  have hmul : (q + 1) * lbs = lbs * q + lbs := by ring
  omega

theorem chunk_size_pos {lbs n : Nat} (h1 : 1 ≤ lbs) (hn : lbs < n) :
    1 ≤ (n + (n / lbs + 1) - 1) / (n / lbs + 1) := by
  obtain ⟨q, hd⟩ : ∃ q, n / lbs = q := ⟨n / lbs, rfl⟩
  rw [hd]
  clear hd
  have hb : 0 < q + 1 := Nat.succ_pos q
  have h2 : 1 * (q + 1) ≤ n + (q + 1) - 1 := by omega
  exact (Nat.le_div_iff_mul_le hb).mpr h2

theorem torchChunk_size_le {lbs : Nat} (h1 : 1 ≤ lbs) (s : List Nat)
    (hl : lbs < s.length) :
    ∀ ch ∈ torchChunk s (s.length / lbs + 1), ch.length ≤ lbs := by
  intro ch hch
  exact (chunksOf_mem_length_le hch).trans (chunk_size_arith h1 hl)

theorem torchChunk_flatten {lbs : Nat} (h1 : 1 ≤ lbs) (s : List Nat)
    (hl : lbs < s.length) :
    (torchChunk s (s.length / lbs + 1)).flatten = s :=
  chunksOf_flatten (chunk_size_pos h1 hl) le_rfl

theorem torchChunk_mem_ne_nil {lbs : Nat} (h1 : 1 ≤ lbs) (s : List Nat)
    (hl : lbs < s.length) :
    ∀ ch ∈ torchChunk s (s.length / lbs + 1), ch ≠ [] :=
  fun _ hch => chunksOf_mem_ne_nil (chunk_size_pos h1 hl) hch

theorem foldl_rows_length_mod {lbs pad : Nat} :
    ∀ (chunks : List (List Nat)), (∀ ch ∈ chunks, ch.length ≤ lbs) →
      ∀ init : List Nat,
        (chunks.foldl (fun a ch => a ++ ch ++ padRow pad (lbs - ch.length))
            init).length % lbs = init.length % lbs := by
  intro chunks
  induction chunks with
  | nil => intro _ init; rfl
  | cons ch rest ih =>
    intro hle init
    have hch : ch.length ≤ lbs := hle ch (by simp)
    rw [List.foldl_cons, ih (fun c hc => hle c (by simp [hc]))]
    simp only [List.length_append, padRow, List.length_replicate]
    have : init.length + ch.length + (lbs - ch.length) = init.length + lbs := by
      omega
    rw [this, Nat.add_mod_right]

theorem packStep_small {lbs pad : Nat} {acc : List Nat} {curr : Nat}
    {s : List Nat} (h : s.length + curr < lbs) :
    packStep lbs pad acc curr s = (acc ++ s, curr + s.length) := by
  simp only [packStep, if_neg (by omega : ¬ lbs ≤ s.length + curr),
    if_neg (by omega : ¬ lbs < s.length),
    if_neg (by omega : ¬ curr + s.length = lbs)]

theorem packStep_meet_fit {lbs pad : Nat} {acc : List Nat} {curr : Nat}
    {s : List Nat} (hm : lbs ≤ s.length + curr) (hf : s.length ≤ lbs) :
    packStep lbs pad acc curr s =
      ((acc ++ padRow pad (lbs - curr)) ++ s,
        if s.length = lbs then 0 else s.length) := by
  simp only [packStep, if_pos hm, if_neg (by omega : ¬ lbs < s.length),
    Nat.zero_add]

theorem packStep_chunk {lbs pad : Nat} {acc : List Nat} {curr : Nat}
    {s : List Nat} (hb : lbs < s.length) :
    packStep lbs pad acc curr s =
      ((torchChunk s (s.length / lbs + 1)).foldl
        (fun a ch => a ++ ch ++ padRow pad (lbs - ch.length))
        (acc ++ padRow pad (lbs - curr)), 0) := by
  simp only [packStep, if_pos (by omega : lbs ≤ s.length + curr), if_pos hb]

theorem packStep_curr_lt {lbs pad : Nat} (h1 : 1 ≤ lbs) (acc : List Nat)
    {curr : Nat} (_hc : curr < lbs) (s : List Nat) :
    (packStep lbs pad acc curr s).2 < lbs := by
  by_cases hb : lbs < s.length
  · rw [packStep_chunk hb]; exact h1
  · by_cases hm : lbs ≤ s.length + curr
    · rw [packStep_meet_fit hm (by omega)]
      by_cases hfit : s.length = lbs
      · simp only [if_pos hfit]; exact h1
      · simp only [if_neg hfit]; omega
    · rw [packStep_small (by omega)]; simp only; omega

theorem packStep_mod {lbs pad : Nat} (h1 : 1 ≤ lbs) {acc : List Nat}
    {curr : Nat} (hc : curr < lbs) (s : List Nat)
    (hm : acc.length % lbs = curr % lbs) :
    (packStep lbs pad acc curr s).1.length % lbs =
      (packStep lbs pad acc curr s).2 % lbs := by
  obtain ⟨t, ht⟩ : ∃ t, acc.length = lbs * t + curr :=
    ⟨acc.length / lbs, by
      have hd := Nat.div_add_mod acc.length lbs
      have hcm : curr % lbs = curr := Nat.mod_eq_of_lt hc
      omega⟩
  have hB : lbs * (t + 1) = lbs * t + lbs := by ring
  by_cases hb : lbs < s.length
  · rw [packStep_chunk hb]
    simp only
    rw [foldl_rows_length_mod _ (torchChunk_size_le h1 s hb)]
    simp only [List.length_append, padRow, List.length_replicate]
    have he : acc.length + (lbs - curr) = lbs * (t + 1) := by omega
    rw [he, Nat.mul_mod_right, Nat.zero_mod]
  · by_cases hmeet : lbs ≤ s.length + curr
    · rw [packStep_meet_fit hmeet (by omega)]
      simp only [List.length_append, padRow, List.length_replicate]
      have he : acc.length + (lbs - curr) + s.length =
          lbs * (t + 1) + s.length := by omega
      rw [he, Nat.mul_add_mod]
      by_cases hfit : s.length = lbs
      · rw [if_pos hfit, hfit, Nat.mod_self, Nat.zero_mod]
      · rw [if_neg hfit]
    · rw [packStep_small (by omega)]
      simp only [List.length_append]
      rw [Nat.add_mod, hm, ← Nat.add_mod]

theorem packLoop_ok {lbs pad : Nat} (h1 : 1 ≤ lbs) :
    ∀ (samples : List (List Nat)) (acc : List Nat) (curr : Nat), curr < lbs →
      ∃ out c, packLoop lbs pad samples acc curr = .ok (out, c) ∧ c < lbs := by
  intro samples
  induction samples with
  | nil => intro acc curr hc; exact ⟨acc, curr, rfl, hc⟩
  | cons s rest ih =>
    intro acc curr hc
    have hstep := @packStep_curr_lt lbs pad h1 acc curr hc s
    simp only [packLoop, if_neg (by omega : ¬ lbs ≤ curr)]
    exact ih _ _ hstep

theorem packLoop_mod {lbs pad : Nat} (h1 : 1 ≤ lbs) :
    ∀ (samples : List (List Nat)) (acc : List Nat) (curr : Nat)
      (out : List Nat) (c : Nat), curr < lbs →
      acc.length % lbs = curr % lbs →
      packLoop lbs pad samples acc curr = .ok (out, c) →
      out.length % lbs = c % lbs := by
  intro samples
  induction samples with
  | nil =>
    intro acc curr out c hc hm he
    simp only [packLoop] at he
    cases he
    exact hm
  | cons s rest ih =>
    intro acc curr out c hc hm he
    simp only [packLoop, if_neg (by omega : ¬ lbs ≤ curr)] at he
    exact ih _ _ _ _ (@packStep_curr_lt lbs pad h1 acc curr hc s)
      (packStep_mod h1 hc s hm) he

/-! ## Claim C1 -/

/-- C1: the claimed shard-format round-trip fails on the code.  Writing the
two-token sequence `[5, 6]` with the Shard Writer and reading the file back
with the Shard Reader yields `[5, 0]` — the first 2 bytes of the 4-byte
little-endian uint16 payload — and not the original tokens `[5, 6]`: the
writer stores each token in 2 bytes while the reader reads only
`header[2]` bytes as single-byte values. -/
theorem c1_roundtrip_eval :
    Except.bind (write_datafile [5, 6]) _load_data_shard =
      Except.ok [5, 0] ∧ [5, 0] ≠ [5, 6] := by
  constructor
  · rfl
  · decide

/-! ## Claim C4 -/

/-- C4: shard-writer completeness fails on the code.  With `shard_size = 10`
and a single 10-token document, the first document already crosses the shard
boundary while `progress_bar` is still `None`, so
`progress_bar.update(remainder)` raises `AttributeError` instead of writing
any shard: the stream's tokens are not reproduced at all. -/
theorem c4_writer_crash_eval :
    tokenize_fw 10 [List.replicate 10 7] =
      Except.error "AttributeError: NoneType object has no attribute update" := by
  rfl

/-! ## Claim C2 -/

/-- C2: row-alignment after packing fails on the code exactly at the spec's
own example.  With `local_batch_size = 10`, `cls_id = 0`, `eos_id = 2`,
`pad_id = 1` and a shard holding two consecutive length-7 samples, `advance()`
produces a packed buffer of length 17 — sample, 3 PADs, sample — because the
final sample's row is never padded; 17 is not a multiple of 10 and is not the
claimed 20. -/
theorem c2_row_alignment_cex :
    padAdvance ⟨10, 0, 2, 1, 1⟩
        ⟨[[0, 3, 3, 3, 3, 3, 2, 0, 3, 3, 3, 3, 3, 2], [9]], 0, [], [], 0⟩ =
      Except.ok ⟨[[0, 3, 3, 3, 3, 3, 2, 0, 3, 3, 3, 3, 3, 2], [9]], 1, [],
        [0, 3, 3, 3, 3, 3, 2, 1, 1, 1, 0, 3, 3, 3, 3, 3, 2], 0⟩ ∧
    ([0, 3, 3, 3, 3, 3, 2, 1, 1, 1, 0, 3, 3, 3, 3, 3, 2] : List Nat).length =
      17 ∧ ¬ (10 ∣ 17) := by
  refine ⟨by rfl, by rfl, by decide⟩

/-! ## Claim C3 -/

/-- C3: leftover carryover fails on the code when the combined buffer contains
no EOS marker.  With `eos_id = 2` and a nonempty shard `[5]` holding no EOS,
`advance()` raises `NameError` (the loop over EOS positions never runs, so
`curr_eos` is unbound at `raw_tokens[curr_eos+1:]`) instead of making all
tokens the new leftover buffer. -/
theorem c3_leftover_cex :
    padAdvance ⟨10, 0, 2, 1, 1⟩ ⟨[[5], [2]], 0, [], [], 0⟩ =
      Except.error "NameError: name curr_eos is not defined" := by
  rfl

/-! ## Claim C6 -/

/-- C6: oversized-sample splitting does not produce `ceil(len/lbs)` chunks.
For a sample of length 20 with `local_batch_size = 10`, the code requests
`20 // 10 + 1 = 3` chunks from `torch.chunk`, which returns 3 pieces of sizes
7, 7, 6 — not `ceil(20/10) = 2` — and the packed buffer of the containing
`advance()` has length 40 (an initial full PAD row plus three padded chunk
rows), not the 20 two rows would occupy. -/
theorem c6_split_cex :
    (torchChunk [0, 3, 3, 3, 3, 3, 3, 3, 3, 3, 3, 3, 3, 3, 3, 3, 3, 3, 3, 2]
        (20 / 10 + 1)).length = 3 ∧ (20 + 10 - 1) / 10 = 2 ∧
    padAdvance ⟨10, 0, 2, 1, 1⟩
        ⟨[[0, 3, 3, 3, 3, 3, 3, 3, 3, 3, 3, 3, 3, 3, 3, 3, 3, 3, 3, 2], [9]],
          0, [], [], 0⟩ =
      Except.ok ⟨[[0, 3, 3, 3, 3, 3, 3, 3, 3, 3, 3, 3, 3, 3, 3, 3, 3, 3, 3, 2],
          [9]], 1, [],
        [1, 1, 1, 1, 1, 1, 1, 1, 1, 1,
         0, 3, 3, 3, 3, 3, 3, 1, 1, 1,
         3, 3, 3, 3, 3, 3, 3, 1, 1, 1,
         3, 3, 3, 3, 3, 2, 1, 1, 1, 1], 0⟩ := by
  refine ⟨by rfl, by rfl, by rfl⟩

/-! ## Claim C10 -/

/-- C10: `reset()` on the padded loader indeed keeps the leftover buffer
(the working buffer is built from `leftover ++ shard 0`), but the claimed
consequence — that resetting a partially consumed loader always differs from
constructing a fresh one when the leftover is nonempty — is false: with
`local_batch_size = 10`, `pad_id = 1`, `eos_id = 2`, shard 0 equal to
`[1,1,1,1,1,1,3,3,3,3,3,2]` and the nonempty leftover `[1]` (a PAD-valued
token), the reset state and the freshly constructed state coincide exactly,
because the extra leading PAD token is absorbed into chunk padding. -/
theorem c10_reset_cex :
    padReset ⟨10, 0, 2, 1, 1⟩
        ⟨[[1, 1, 1, 1, 1, 1, 3, 3, 3, 3, 3, 2], [9]], 5, [1], [7, 7], 3⟩ =
      padInit ⟨10, 0, 2, 1, 1⟩ [[1, 1, 1, 1, 1, 1, 3, 3, 3, 3, 3, 2], [9]] ∧
    ([1] : List Nat) ≠ [] := by
  refine ⟨by rfl, by decide⟩

/-! ## Claim C5 -/

/-- C5: Shard Reader validation.  For any file of at least header size: a
first header word other than 20240520 makes the reader fail; with correct
magic, a second header word other than 1 makes it fail; with correct magic and
version, it fails when fewer bytes than the declared token count remain after
the 1024-byte header; and any successful read returns exactly the declared
number of token units — the first `header[2]` payload bytes — never partial or
extraneous data. -/
theorem c5_reader_validation (file : List Nat) (h : 1024 ≤ file.length) :
    (readI32 file 0 ≠ 20240520 → ∃ e, _load_data_shard file = .error e) ∧
    (readI32 file 0 = 20240520 → readI32 file 1 ≠ 1 →
      ∃ e, _load_data_shard file = .error e) ∧
    (readI32 file 0 = 20240520 → readI32 file 1 = 1 → 0 ≤ readI32 file 2 →
      file.length - 1024 < (readI32 file 2).toNat →
      ∃ e, _load_data_shard file = .error e) ∧
    (∀ toks, _load_data_shard file = .ok toks →
      readI32 file 0 = 20240520 ∧ readI32 file 1 = 1 ∧
      toks.length = (readI32 file 2).toNat ∧
      toks = (file.drop 1024).take (readI32 file 2).toNat) := by
  have hlen : ¬ file.length < 1024 := by omega
  have hdrop : (file.drop 1024).length = file.length - 1024 :=
    List.length_drop 1024 file
  refine ⟨?_, ?_, ?_, ?_⟩
  · intro hmagic
    refine ⟨"magic number mismatch in the data .bin file", ?_⟩
    simp only [_load_data_shard, if_neg hlen, if_neg hmagic]
  · intro hmagic hver
    refine ⟨"unsupported version", ?_⟩
    simp only [_load_data_shard, if_neg hlen, if_pos hmagic, if_neg hver]
  · intro hmagic hver hpos hshort
    refine ⟨"number of tokens read does not match header?", ?_⟩
    simp only [_load_data_shard, if_neg hlen, if_pos hmagic, if_pos hver,
      if_neg (show ¬ readI32 file 2 < 0 by omega)]
    rw [if_pos (by omega : (file.drop 1024).length < (readI32 file 2).toNat)]
  · intro toks htoks
    simp only [_load_data_shard, if_neg hlen] at htoks
    by_cases hmagic : readI32 file 0 = 20240520
    · rw [if_pos hmagic] at htoks
      by_cases hver : readI32 file 1 = 1
      · rw [if_pos hver] at htoks
        by_cases hneg : readI32 file 2 < 0
        · rw [if_pos hneg] at htoks
          cases htoks
        · rw [if_neg hneg] at htoks
          by_cases hshort : (file.drop 1024).length < (readI32 file 2).toNat
          · rw [if_pos hshort] at htoks
            cases htoks
          · rw [if_neg hshort] at htoks
            cases htoks
            refine ⟨hmagic, hver, ?_, rfl⟩
            rw [List.length_take]
            omega
      · rw [if_neg hver] at htoks
        cases htoks
    · rw [if_neg hmagic] at htoks
      cases htoks

/-- Witness for C5: a 1024-byte all-zero file has a wrong magic word, and the
reader rejects it. -/
theorem c5_reader_validation_witness :
    1024 ≤ (List.replicate 1024 0).length ∧
    ∃ e, _load_data_shard (List.replicate 1024 0) = .error e :=
  ⟨by decide,
    (c5_reader_validation (List.replicate 1024 0) (by decide)).1 (by decide)⟩

/-! ## Claim C7 -/

/-- C7: single-stream `next_batch` contract.  Whenever one more global batch
fits in the current shard buffer (the invariant the eager advance maintains
for shards longer than `batch_size`), a call returns exactly
`local_batch_size = batch_size / world_size` tokens, namely the slice
`[pos + rank*local_batch_size, pos + (rank+1)*local_batch_size)` of the
current shard's buffer — so a batch never spans two shards — then advances
the cursor by `batch_size`, and advances to the next shard exactly when the
new cursor plus one more `batch_size` reaches or passes the end of the
buffer. -/
theorem c7_next_batch (batch_size rank world_size : Nat) (st : DState)
    (_hw : 0 < world_size) (hdvd : world_size ∣ batch_size)
    (hrank : rank < world_size)
    (hfit : st.pos + batch_size ≤ st.tokens.length) :
    (dNextBatch batch_size rank world_size st).1.length =
        batch_size / world_size ∧
    (∀ i, i < batch_size / world_size →
      (dNextBatch batch_size rank world_size st).1.getD i 0 =
        st.tokens.getD
          (st.pos + rank * (batch_size / world_size) + i) 0) ∧
    (dNextBatch batch_size rank world_size st).2 =
      (if st.tokens.length ≤ st.pos + batch_size + batch_size
       then dAdvance ⟨st.files, st.next_shard, st.tokens, st.pos + batch_size⟩
       else ⟨st.files, st.next_shard, st.tokens, st.pos + batch_size⟩) := by
  have hmul : batch_size / world_size * world_size = batch_size :=
    Nat.div_mul_cancel hdvd
  have hrow : (rank + 1) * (batch_size / world_size) ≤ batch_size := by
    calc (rank + 1) * (batch_size / world_size)
        ≤ world_size * (batch_size / world_size) :=
          Nat.mul_le_mul_right _ hrank
      _ = batch_size := by rw [Nat.mul_comm]; exact hmul
  have hbound : st.pos + rank * (batch_size / world_size) +
      batch_size / world_size ≤ st.tokens.length := by
    have : (rank + 1) * (batch_size / world_size) =
        rank * (batch_size / world_size) + batch_size / world_size := by ring
    omega
  refine ⟨?_, ?_, ?_⟩
  · simp only [dNextBatch, List.length_take, List.length_drop]
    omega
  · intro i hi
    simp only [dNextBatch]
    rw [List.getD_eq_getElem?_getD, List.getElem?_take, if_pos hi,
      List.getElem?_drop, ← List.getD_eq_getElem?_getD,
      Nat.add_assoc]
  · simp only [dNextBatch]

/-- Witness for C7: `batch_size = 4`, `world_size = 2`, `rank = 1`, cursor 0
on a 12-token shard: the call returns the 2 tokens at indices 2 and 3. -/
theorem c7_next_batch_witness :
    0 < 2 ∧ (2 : Nat) ∣ 4 ∧ 1 < 2 ∧ 0 + 4 ≤ 12 ∧
    (dNextBatch 4 1 2 ⟨[[1], [2]], 0,
        [10, 11, 12, 13, 14, 15, 16, 17, 18, 19, 20, 21], 0⟩).1.length = 2 ∧
    (∀ i, i < 2 → (dNextBatch 4 1 2 ⟨[[1], [2]], 0,
        [10, 11, 12, 13, 14, 15, 16, 17, 18, 19, 20, 21], 0⟩).1.getD i 0 =
      ([10, 11, 12, 13, 14, 15, 16, 17, 18, 19, 20, 21] : List Nat).getD
        (0 + 1 * 2 + i) 0) :=
  ⟨by decide, by decide, by decide, by decide,
    (c7_next_batch 4 1 2
      ⟨[[1], [2]], 0, [10, 11, 12, 13, 14, 15, 16, 17, 18, 19, 20, 21], 0⟩
      (by decide) (by decide) (by decide) (by decide)).1,
    (c7_next_batch 4 1 2
      ⟨[[1], [2]], 0, [10, 11, 12, 13, 14, 15, 16, 17, 18, 19, 20, 21], 0⟩
      (by decide) (by decide) (by decide) (by decide)).2.1⟩

/-! ## Claim C8 -/

/-- C8: deterministic epoch reshuffle.  The result of the padded loader's
`advance()` depends only on the file list, the shard counter and the leftover
buffer — so two independently constructed instances with the same shard
counter and the same starting file list produce identical (shuffled) file
orders — and for every advance that processes a nonempty combined buffer, the
file list is reshuffled (deterministically, seeded with the shard counter)
exactly when the shard counter is congruent to 0 modulo the file count, and
left untouched otherwise. -/
theorem c8_reshuffle :
    (∀ (P : PadParams) (files : List (List Nat)) (ns : Nat)
        (lo t1 t2 : List Nat) (p1 p2 : Nat),
      padAdvance P ⟨files, ns, lo, t1, p1⟩ =
        padAdvance P ⟨files, ns, lo, t2, p2⟩) ∧
    (∀ (P : PadParams) (files : List (List Nat)) (ns : Nat) (raw : List Nat)
        (st' : PState), raw ≠ [] →
      processRaw P files ns raw = .ok st' →
      st'.files =
        if ns % files.length = 0 then pythonShuffle ns files else files) := by
  constructor
  · intro P files ns lo t1 t2 p1 p2
    rfl
  · intro P files ns raw st' hraw heq
    simp only [processRaw, if_neg hraw] at heq
    rcases hE : (eosPositions P.eos_id raw).getLast? with _ | le
    · rw [hE] at heq
      cases heq
    · rw [hE] at heq
      rcases hp : packLoop P.local_batch_size P.pad_id
          (samplesOf P.eos_id raw) [] 0 with e | ⟨out, c⟩
      · rw [hp] at heq
        cases heq
      · rw [hp] at heq
        cases heq
        rfl

/-- Witness for C8: two loaders over the same two files with shard counter 1
and leftover `[3]` advance identically, and an advance whose updated counter
is 2 with 2 files (2 % 2 = 0) installs the deterministically shuffled file
list. -/
theorem c8_reshuffle_witness :
    (padAdvance ⟨2, 0, 2, 1, 1⟩ ⟨[[0, 2]], 1, [3], [4], 5⟩ =
      padAdvance ⟨2, 0, 2, 1, 1⟩ ⟨[[0, 2]], 1, [3], [9, 9], 0⟩) ∧
    ([2] : List Nat) ≠ [] ∧
    (⟨pythonShuffle 2 [[0, 2], [0, 0, 2]], 2, [], [2], 0⟩ : PState).files =
      (if 2 % 2 = 0 then pythonShuffle 2 [[0, 2], [0, 0, 2]]
       else [[0, 2], [0, 0, 2]]) :=
  ⟨c8_reshuffle.1 ⟨2, 0, 2, 1, 1⟩ [[0, 2]] 1 [3] [4] [9, 9] 5 0,
    by decide,
    c8_reshuffle.2 ⟨2, 0, 2, 1, 1⟩ [[0, 2], [0, 0, 2]] 2 [2]
      ⟨pythonShuffle 2 [[0, 2], [0, 0, 2]], 2, [], [2], 0⟩
      (by decide) (by rfl)⟩

/-! ## Claim C9 -/

/-- The post-assembly part of `advance` can never surface the packing loop's
assertion error when `local_batch_size ≥ 1`. -/
theorem processRaw_ne_assert (P : PadParams) (files : List (List Nat))
    (ns : Nat) (raw : List Nat) (h1 : 1 ≤ P.local_batch_size) :
    processRaw P files ns raw ≠
      .error "AssertionError: curr_batch_len, local_batch_size" := by
  intro heq
  by_cases hraw : raw = []
  · simp only [processRaw, if_pos hraw] at heq
    cases heq
  · simp only [processRaw, if_neg hraw] at heq
    rcases hE : (eosPositions P.eos_id raw).getLast? with _ | le
    · rw [hE] at heq
      exact absurd (Except.error.inj heq) (by decide)
    · rw [hE] at heq
      obtain ⟨out, c, hp, _⟩ :=
        packLoop_ok h1 (samplesOf P.eos_id raw) [] 0 (by omega)
      rw [hp] at heq
      cases heq

/-- C9: the in-loop assertion of the padded loader's packing loop never
fails when `local_batch_size ≥ 1`: for every sample list the loop runs to
completion (the running row length is below `local_batch_size` at the start
of every iteration, maintained by padding on meet-or-exceed, the exact-fit
reset, and the reset after splitting), and consequently `advance()` never
raises the assertion error. -/
theorem c9_assert_ok :
    (∀ (lbs pad : Nat) (samples : List (List Nat)), 1 ≤ lbs →
      (packLoop lbs pad samples [] 0).isOk = true) ∧
    (∀ (P : PadParams) (st : PState), 1 ≤ P.local_batch_size →
      padAdvance P st ≠
        .error "AssertionError: curr_batch_len, local_batch_size") := by
  constructor
  · intro lbs pad samples h1
    obtain ⟨out, c, he, _⟩ := packLoop_ok h1 samples [] 0 (by omega)
    rw [he]
    rfl
  · intro P st h1 heq
    unfold padAdvance at heq
    split_ifs at heq with hzero hep
    · exact absurd (Except.error.inj heq) (by decide)
    · exact processRaw_ne_assert P st.files (st.next_shard + 1) _ h1 heq
    · exact processRaw_ne_assert P st.files st.next_shard _ h1 heq

/-- Witness for C9: a concrete packing run with `local_batch_size = 2`
(samples of lengths 2 and 3) completes without tripping the assertion, and a
concrete `advance()` does not raise it. -/
theorem c9_assert_ok_witness :
    1 ≤ 2 ∧ (packLoop 2 1 [[0, 2], [5, 5, 5]] [] 0).isOk = true ∧
    padAdvance ⟨2, 0, 2, 1, 1⟩ ⟨[[0, 2]], 0, [], [], 0⟩ ≠
      .error "AssertionError: curr_batch_len, local_batch_size" :=
  ⟨by decide, c9_assert_ok.1 2 1 [[0, 2], [5, 5, 5]] (by decide),
    c9_assert_ok.2 ⟨2, 0, 2, 1, 1⟩ ⟨[[0, 2]], 0, [], [], 0⟩ (by decide)⟩

/-- C2 (amended): for every buffer, every completed row is exactly
`local_batch_size` wide, but the final row may be left unfinished: the packed
buffer's total length is congruent modulo `local_batch_size` to the final
running row length (so it is a multiple of `local_batch_size` exactly when the
last sample completes its row); in the spec's example — `local_batch_size=10`,
two samples of length 7 — the packed buffer is sample, 3 PADs, sample, of
length 17 with a final running length of 7, not the claimed 20. -/
theorem c2_row_alignment_amended :
    (∀ (lbs pad : Nat) (samples : List (List Nat)) (out : List Nat) (c : Nat),
        1 ≤ lbs → packLoop lbs pad samples [] 0 = .ok (out, c) →
        c < lbs ∧ out.length % lbs = c) ∧
    packLoop 10 1 [[0, 3, 3, 3, 3, 3, 2], [0, 3, 3, 3, 3, 3, 2]] [] 0 =
      .ok ([0, 3, 3, 3, 3, 3, 2, 1, 1, 1, 0, 3, 3, 3, 3, 3, 2], 7) := by
  constructor
  · intro lbs pad samples out c h1 he
    obtain ⟨out', c', he', hc'⟩ := packLoop_ok h1 samples [] 0 (by omega)
    rw [he'] at he
    injection he with h2
    injection h2 with h3 h4
    subst h3
    subst h4
    refine ⟨hc', ?_⟩
    have hm := packLoop_mod h1 samples [] 0 out' c' (by omega) rfl he'
    rwa [Nat.mod_eq_of_lt hc'] at hm
  · rfl

/-- Witness for C2 (amended): the example run itself, with its final running
length 7 below 10 and buffer length 17 satisfying 17 % 10 = 7. -/
theorem c2_row_alignment_amended_witness :
    1 ≤ 10 ∧
    (7 < 10 ∧
      ([0, 3, 3, 3, 3, 3, 2, 1, 1, 1, 0, 3, 3, 3, 3, 3, 2] :
        List Nat).length % 10 = 7) :=
  ⟨by decide,
    c2_row_alignment_amended.1 10 1 [[0, 3, 3, 3, 3, 3, 2], [0, 3, 3, 3, 3, 3, 2]]
      [0, 3, 3, 3, 3, 3, 2, 1, 1, 1, 0, 3, 3, 3, 3, 3, 2] 7
      (by decide) c2_row_alignment_amended.2⟩

/-- C3 (amended): the combined buffer processed by `advance()` is the
untouched leftover buffer prepended to the newly loaded shard payload, and
for every combined buffer that contains at least one EOS the tokens strictly
after the last EOS become the new leftover buffer; a nonempty buffer with no
EOS instead makes `advance()` fail with a `NameError` (`curr_eos` unbound). -/
theorem c3_leftover_amended :
    (∀ (P : PadParams) (st : PState), st.files.length ≠ 0 →
        st.next_shard / st.files.length < P.max_epochs →
        padAdvance P st =
          processRaw P st.files (st.next_shard + 1)
            (st.leftover_tokens ++
              st.files.getD (st.next_shard % st.files.length) [])) ∧
    (∀ (P : PadParams) (files : List (List Nat)) (ns : Nat) (raw : List Nat)
        (le : Nat), 1 ≤ P.local_batch_size →
        (eosPositions P.eos_id raw).getLast? = some le →
        ∃ st', processRaw P files ns raw = .ok st' ∧
          st'.leftover_tokens = raw.drop (le + 1)) := by
  constructor
  · intro P st hz he
    simp only [padAdvance, if_neg hz, if_pos he]
  · intro P files ns raw le h1 hE
    have hraw : raw ≠ [] := by
      intro h
      rw [h] at hE
      simp [eosPositions] at hE
    obtain ⟨out, c, hp, _⟩ :=
      @packLoop_ok P.local_batch_size P.pad_id h1 (samplesOf P.eos_id raw) []
        0 (by omega)
    refine ⟨⟨if ns % files.length = 0 then pythonShuffle ns files else files,
      ns, raw.drop (le + 1), out, 0⟩, ?_, rfl⟩
    simp only [processRaw, if_neg hraw, hE, hp]

/-- Witness for C3 (amended): for the buffer `[0, 3, 2, 4]` with EOS id 2 the
last EOS is at index 2 and the new leftover is `[4]`. -/
theorem c3_leftover_amended_witness :
    1 ≤ 10 ∧
    (eosPositions 2 [0, 3, 2, 4]).getLast? = some 2 ∧
    (∃ st', processRaw ⟨10, 0, 2, 1, 1⟩ [[2], [9]] 1 [0, 3, 2, 4] = .ok st' ∧
      st'.leftover_tokens = ([0, 3, 2, 4] : List Nat).drop (2 + 1)) :=
  ⟨by decide, by rfl,
    c3_leftover_amended.2 ⟨10, 0, 2, 1, 1⟩ [[2], [9]] 1 [0, 3, 2, 4] 2
      (by decide) (by rfl)⟩

/-- C6 (amended): a sample strictly longer than `local_batch_size` is split by
`torch.chunk` with `len // local_batch_size + 1` requested chunks — which can
exceed `ceil(len/local_batch_size)`, e.g. 3 chunks of sizes 7, 7, 6 for
`len = 20`, `local_batch_size = 10` — the chunks concatenate back to exactly
the sample and each is between 1 and `local_batch_size` tokens long; each
chunk is emitted as its own row padded with PAD tokens to full width, after
the current row is first padded out, and the running row length is reset to 0
so the split sample is never combined with neighboring samples. -/
theorem c6_split_amended :
    ∀ (lbs pad : Nat) (acc : List Nat) (curr : Nat) (s : List Nat),
      1 ≤ lbs → lbs < s.length →
      packStep lbs pad acc curr s =
        ((torchChunk s (s.length / lbs + 1)).foldl
          (fun a ch => a ++ ch ++ padRow pad (lbs - ch.length))
          (acc ++ padRow pad (lbs - curr)), 0) ∧
      (torchChunk s (s.length / lbs + 1)).flatten = s ∧
      (∀ ch ∈ torchChunk s (s.length / lbs + 1),
        1 ≤ ch.length ∧ ch.length ≤ lbs) := by
  intro lbs pad acc curr s h1 hb
  refine ⟨packStep_chunk hb, torchChunk_flatten h1 s hb, ?_⟩
  intro ch hch
  exact ⟨List.length_pos.mpr (torchChunk_mem_ne_nil h1 s hb ch hch),
    torchChunk_size_le h1 s hb ch hch⟩

/-- Witness for C6 (amended): the length-20 sample with
`local_batch_size = 10` — its three chunks flatten back to the sample and
each chunk is at most 10 tokens long. -/
theorem c6_split_amended_witness :
    1 ≤ 10 ∧
    10 < ([0, 3, 3, 3, 3, 3, 3, 3, 3, 3, 3, 3, 3, 3, 3, 3, 3, 3, 3, 2] :
      List Nat).length ∧
    ((torchChunk [0, 3, 3, 3, 3, 3, 3, 3, 3, 3, 3, 3, 3, 3, 3, 3, 3, 3, 3, 2]
        (20 / 10 + 1)).flatten =
      [0, 3, 3, 3, 3, 3, 3, 3, 3, 3, 3, 3, 3, 3, 3, 3, 3, 3, 3, 2] ∧
      (∀ ch ∈ torchChunk
          [0, 3, 3, 3, 3, 3, 3, 3, 3, 3, 3, 3, 3, 3, 3, 3, 3, 3, 3, 2]
          (20 / 10 + 1), 1 ≤ ch.length ∧ ch.length ≤ 10)) := by
  have h := c6_split_amended 10 1 [] 0
    [0, 3, 3, 3, 3, 3, 3, 3, 3, 3, 3, 3, 3, 3, 3, 3, 3, 3, 3, 2]
    (by decide) (by decide)
  exact ⟨by decide, by decide, h.2.1, h.2.2⟩

/-- C10 (amended): `reset()` on the padded loader does not clear the
leftover-token buffer — the shard index rewinds to 0 and the working buffer is
built by prepending the previously accumulated `_leftover_tokens` to shard 0's
payload — so resetting a partially consumed loader can differ from
constructing a fresh one when the leftover buffer is nonempty, though not in
every case (the two states can coincide, as the counterexample shows). -/
theorem c10_reset_amended :
    (∀ (P : PadParams) (st : PState),
        padReset P st =
          padAdvance P ⟨st.files, 0, st.leftover_tokens, st.tokens, st.pos⟩) ∧
    (∀ (P : PadParams) (st : PState), st.files.length ≠ 0 →
        0 < P.max_epochs →
        padReset P st =
          processRaw P st.files 1
            (st.leftover_tokens ++ st.files.getD 0 [])) := by
  constructor
  · intro P st
    rfl
  · intro P st hz hme
    show padAdvance P ⟨st.files, 0, st.leftover_tokens, st.tokens, st.pos⟩ = _
    simp only [padAdvance, if_neg hz, Nat.zero_div, if_pos hme, Nat.zero_mod]

/-- Witness for C10 (amended): resetting a loader with leftover `[9]` over
shard 0 = `[0, 2]` processes the combined buffer `[9, 0, 2]`. -/
theorem c10_reset_amended_witness :
    ((⟨[[0, 2]], 3, [9], [7], 4⟩ : PState).files.length ≠ 0 ∧
      0 < (⟨5, 0, 2, 1, 1⟩ : PadParams).max_epochs) ∧
    padReset ⟨5, 0, 2, 1, 1⟩ ⟨[[0, 2]], 3, [9], [7], 4⟩ =
      processRaw ⟨5, 0, 2, 1, 1⟩ [[0, 2]] 1 ([9] ++ [0, 2]) :=
  ⟨⟨by decide, by decide⟩,
    c10_reset_amended.2 ⟨5, 0, 2, 1, 1⟩ ⟨[[0, 2]], 3, [9], [7], 4⟩
      (by decide) (by decide)⟩
